import Mathlib

/-!
Verification of the mic-array acquisition scripts.

The development embeds the acquisition-relevant parts of the repository:
the signal-level computations of get_gain.py (lines 65-74) and
test_directivity.py (lines 211-217), modelled with numpy int16
two-complement semantics; the sweep cadence arithmetic of
test_directivity.py (lines 149-150, 186); the acquisition event traces of
both scripts, checked by a small serialization automaton; the sweep loop
exception flow of test_directivity.py (lines 181-256); the persisted CSV
column layout (lines 220-232, 251-256); and the lock_doa function of
lock_doa.py (lines 7-18).
-/

namespace MicArray

/-! ### numpy int16 arithmetic

Sample buffers are numpy arrays of dtype int16. Arithmetic on them wraps
to the interval [-32768, 32767]: `wrap16` is that cast, `absI16` is
numpy abs on int16 (which wraps the absolute value, so absI16 (-32768)
is -32768), and `sq16` is the elementwise square of an int16 array,
which wraps the mathematical square. -/

def wrap16 (y : Int) : Int := (y + 32768) % 65536 - 32768

def absI16 (x : Int) : Int := wrap16 (Int.natAbs x)

def sq16 (x : Int) : Int := wrap16 (x * x)

/-! ### Signal Level Analyzer, as the source computes it

From get_gain.py lines 65-74 and test_directivity.py lines 211-217:
  rms  = np.sqrt(np.mean(audio_data**2))   with audio_data of dtype int16,
  peak = np.max(np.abs(audio_data)),
  full_scale = 32768.0,
  x_dbfs = 20*log10(x/full_scale) if x > 0 else -inf.
np.mean accumulates in float64, so the wrapped squares themselves are
summed exactly; the wrap happens in the elementwise int16 square. -/

def sumSqCode (xs : List Int) : Int := (xs.map sq16).sum

def meanSqCode (xs : List Int) : ℚ := (sumSqCode xs : ℚ) / (xs.length : ℚ)

noncomputable def rmsLevel (xs : List Int) : ℝ :=
  Real.sqrt ((sumSqCode xs : ℝ) / (xs.length : ℝ))

def peakLevel : List Int → Int
  | [] => 0
  | x :: rest => rest.foldl (fun m y => max m (absI16 y)) (absI16 x)

/-- Modelled from the spec (section 4.1), for comparison with the code:
RMS = sqrt(mean(sample^2)) over the whole buffer in exact unbounded
arithmetic. -/
noncomputable def rmsSpecFormula (xs : List Int) : ℝ :=
  Real.sqrt ((((xs.map fun x => x * x).sum : Int) : ℝ) / (xs.length : ℝ))

/-- Result of the dBFS conversion: either a finite decibel value or the
negative-infinity sentinel produced for non-positive levels. -/
inductive DBFS : Type
  | negInf : DBFS
  | val (x : ℝ) : DBFS

/-- dBFS conversion from the source: 20*log10(x/32768) if x > 0 else -inf. -/
noncomputable def dbfs (x : ℝ) : DBFS :=
  if 0 < x then .val (20 * Real.logb 10 (x / 32768)) else .negInf

noncomputable def rmsDbfs (xs : List Int) : DBFS := dbfs (rmsLevel xs)

noncomputable def peakDbfs (xs : List Int) : DBFS := dbfs ((peakLevel xs : ℝ))

/-! ### Sweep cadence arithmetic

From test_directivity.py lines 149-150 and 186:
  degrees_per_measurement = 360 / resolution
  interval = seconds_per_rotation * (degrees_per_measurement / 360)
  expected_angle = (i * degrees_per_measurement) % 360
Python float % on a positive modulus is a - b*floor(a/b). -/

def degreesPerMeasurement (resolution : ℚ) : ℚ := 360 / resolution

def interval (resolution secondsPerRotation : ℚ) : ℚ :=
  secondsPerRotation * (degreesPerMeasurement resolution / 360)

def pymod (a b : ℚ) : ℚ := a - b * ⌊a / b⌋

def expectedAngle (resolution : ℚ) (i : Nat) : ℚ :=
  pymod ((i : ℚ) * degreesPerMeasurement resolution) 360

/-! ### Sweep configuration handling

test_directivity.py performs no validation of its parameters. The only
thing standing between a bad configuration and the acquisition loop is
Python division: `360 / resolution` raises ZeroDivisionError when
resolution = 0, and `range(resolution)` is empty for negative
resolution. SweepErr also carries the InvalidConfigError of the spec
taxonomy so that its absence from every code path can be stated. -/

inductive SweepErr : Type
  | zeroDivision : SweepErr
  | invalidConfig : SweepErr
deriving DecidableEq

structure SweepSetup where
  dpm : ℚ
  stepInterval : ℚ
  steps : List Nat
deriving DecidableEq

/-- Python division of a float by an int: raises ZeroDivisionError on a
zero divisor. -/
def pyIntDiv (a : ℚ) (b : Int) : Except SweepErr ℚ :=
  if b = 0 then .error .zeroDivision else .ok (a / (b : ℚ))

/-- The pre-loop setup of test_directivity.py (lines 149-150, 182): the
step geometry and the list of step indices range(resolution). -/
def sweepSetup (resolution : Int) (secondsPerRotation : ℚ) :
    Except SweepErr SweepSetup := do
  let dpm ← pyIntDiv 360 resolution
  return ⟨dpm, secondsPerRotation * (dpm / 360), List.range resolution.toNat⟩

/-! ### Acquisition event traces and their serialization

Events of one process run: control-plane session operations on the
tuning interface, sleeps (in milliseconds), and the audio capture
endpoints. `acqStep` is an automaton accepting exactly the serialized
traces in which every audio capture is preceded by a control-plane close
followed by a settle sleep of at least `minSettle` milliseconds, and in
which control-plane and audio intervals never overlap. -/

inductive AcqEv : Type
  | ctrlOpen : AcqEv
  | ctrlRead : AcqEv
  | ctrlClose : AcqEv
  | sleepMs (d : Nat) : AcqEv
  | audioStart : AcqEv
  | audioEnd : AcqEv
deriving DecidableEq

inductive AcqSt : Type
  | idle : AcqSt
  | ctrl : AcqSt
  | closed : AcqSt
  | settled : AcqSt
  | audio : AcqSt
deriving DecidableEq

def acqStep (minSettle : Nat) : AcqSt → AcqEv → Option AcqSt
  | .idle, .ctrlOpen => some .ctrl
  | .idle, .sleepMs _ => some .idle
  | .ctrl, .ctrlRead => some .ctrl
  | .ctrl, .ctrlClose => some .closed
  | .closed, .sleepMs d => if minSettle ≤ d then some .settled else none
  | .settled, .audioStart => some .audio
  | .audio, .audioEnd => some .idle
  | _, _ => none

def acqRun (minSettle : Nat) : AcqSt → List AcqEv → Option AcqSt
  | s, [] => some s
  | s, e :: rest =>
    match acqStep minSettle s e with
    | some s2 => acqRun minSettle s2 rest
    | none => none

/-- Event trace of get_gain (get_gain.py lines 25-59, device present):
open the tuning session, five register round-trips (AGCGAIN, AGCMAXGAIN,
AGCDESIREDLEVEL, direction, is_voice), close, sleep 0.1 s, then the
audio capture. -/
def getGainTrace : List AcqEv :=
  [.ctrlOpen, .ctrlRead, .ctrlRead, .ctrlRead, .ctrlRead, .ctrlRead, .ctrlClose,
   .sleepMs 100, .audioStart, .audioEnd]

/-- Event trace of one sweep iteration (test_directivity.py lines
189-245): open the tuning session, three register round-trips (AGCGAIN,
direction, is_voice), close, sleep 0.05 s, the audio capture, then the
optional cadence sleep of the remaining interval. -/
def sweepStepTrace (slack : Option Nat) : List AcqEv :=
  [.ctrlOpen, .ctrlRead, .ctrlRead, .ctrlRead, .ctrlClose,
   .sleepMs 50, .audioStart, .audioEnd] ++
    (match slack with
     | some d => [.sleepMs d]
     | none => [])

/-- Full sweep trace: one step trace per iteration, each with its own
optional cadence sleep. -/
def sweepTrace (slacks : List (Option Nat)) : List AcqEv :=
  (slacks.map sweepStepTrace).flatten

/-! ### The sweep loop exception flow

From test_directivity.py lines 181-256: the for-loop body appends one
record per successful step; only KeyboardInterrupt is caught (and only
breaks out to the save), any other exception propagates out of the
function, skipping the DataFrame construction and df.to_csv entirely.
Each step is abstracted by its outcome; the record type is a parameter
since the control flow does not inspect record contents. -/

inductive StepOutcome (α : Type) : Type
  | ok (r : α) : StepOutcome α
  | fault (e : String) : StepOutcome α
  | interrupt : StepOutcome α
deriving DecidableEq

inductive SweepExit : Type
  | completed : SweepExit
  | cancelled : SweepExit
  | raised (e : String) : SweepExit
deriving DecidableEq

def runSweep {α : Type} : List (StepOutcome α) → List α × SweepExit
  | [] => ([], .completed)
  | .ok r :: rest => ((r :: (runSweep rest).1), (runSweep rest).2)
  | .fault e :: _ => ([], .raised e)
  | .interrupt :: _ => ([], .cancelled)

/-- What df.to_csv persists: the collected records when the loop
completed or was interrupted, nothing when an exception propagated
(the save statement is never reached). -/
def sweepSaved {α : Type} (steps : List (StepOutcome α)) : Option (List α) :=
  match runSweep steps with
  | (_, .raised _) => none
  | (rs, _) => some rs

/-- What the caller receives: the DataFrame of collected records, or no
return value at all when an exception propagated. -/
def sweepReturn {α : Type} (steps : List (StepOutcome α)) : Option (List α) :=
  match runSweep steps with
  | (_, .raised _) => none
  | (rs, _) => some rs

/-! ### The persisted measurement table

From test_directivity.py lines 220-232: each measurement is a dict with
eleven keys in a fixed order; pandas builds the DataFrame columns from
that key order and df.to_csv (line 256, index=False) writes them as the
header. -/

structure MeasurementRecord where
  measurement_index : Nat
  expected_angle : ℚ
  timestamp : String
  doa_angle : Int
  agc_gain : ℚ
  agc_gain_db : DBFS
  voice_activity : Bool
  rms_level : ℝ
  rms_dbfs : DBFS
  peak_level : Int
  peak_dbfs : DBFS

inductive Cell : Type
  | natC (n : Nat) : Cell
  | ratC (q : ℚ) : Cell
  | strC (s : String) : Cell
  | intC (i : Int) : Cell
  | boolC (b : Bool) : Cell
  | realC (x : ℝ) : Cell
  | dbC (d : DBFS) : Cell

def recordRow (r : MeasurementRecord) : List Cell :=
  [.natC r.measurement_index, .ratC r.expected_angle, .strC r.timestamp,
   .intC r.doa_angle, .ratC r.agc_gain, .dbC r.agc_gain_db,
   .boolC r.voice_activity, .realC r.rms_level, .dbC r.rms_dbfs,
   .intC r.peak_level, .dbC r.peak_dbfs]

def csvColumns : List String :=
  ["measurement_index", "expected_angle", "timestamp", "doa_angle", "agc_gain",
   "agc_gain_db", "voice_activity", "rms_level", "rms_dbfs", "peak_level",
   "peak_dbfs"]

structure Table where
  header : List String
  rows : List (List Cell)

def csvTable (recs : List MeasurementRecord) : Table :=
  ⟨csvColumns, recs.map recordRow⟩

/-! ### lock_doa

From lock_doa.py lines 7-18. The body never mentions its angle
parameter: it creates a Tuning object, evaluates the attribute
Mic_tuning.lock_doa without calling it (a bare attribute access), prints
the direction once, then loops printing direction and voice activity
with a one-second sleep until interrupted. `iters` counts the loop
iterations completed before the interrupt arrives. -/

inductive DoaOp : Type
  | tuningCreate : DoaOp
  | refLockDoa : DoaOp
  | invokeLockDoa : DoaOp
  | readDirection : DoaOp
  | readIsVoice : DoaOp
  | sleepOne : DoaOp
  | printOut : DoaOp
deriving DecidableEq

def doaLoopBlock : List DoaOp :=
  [.readDirection, .printOut, .readIsVoice, .printOut, .sleepOne]

set_option linter.unusedVariables false in
def lock_doa (angle : Int) (devPresent : Bool) (iters : Nat) : List DoaOp :=
  if devPresent then
    [.tuningCreate, .refLockDoa, .readDirection, .printOut] ++
      (List.replicate iters doaLoopBlock).flatten
  else []

/-! ## Serialization of control-plane and audio access -/

theorem acqRun_append (m : Nat) (s : AcqSt) (l1 l2 : List AcqEv) :
    acqRun m s (l1 ++ l2) = (acqRun m s l1).bind fun s2 => acqRun m s2 l2 := by
  induction l1 generalizing s with
  | nil => simp [acqRun]
  | cons e rest ih =>
    simp only [List.cons_append, acqRun]
    cases acqStep m s e with
    | none => simp
    | some s2 => simp [ih]

theorem acqRun_sweepStep (slack : Option Nat) :
    acqRun 50 .idle (sweepStepTrace slack) = some .idle := by
  cases slack with
  | none => rfl
  | some d => rfl

/-- C1, amended: in the one-off reader and in every sweep iteration the
control-plane tuning session is closed and a fixed settle delay elapses
before the audio capture of that measurement begins, and no
control-plane session interval ever overlaps an audio capture interval
(the serialization automaton accepts both traces); but the settle delay
is 100 ms only in the one-off reader, each sweep iteration settles for
just 50 ms. -/
theorem C1_settle_serialization :
    acqRun 100 .idle getGainTrace = some .idle ∧
    ∀ slacks : List (Option Nat), acqRun 50 .idle (sweepTrace slacks) = some .idle := by
  refine ⟨rfl, ?_⟩
  intro slacks
  induction slacks with
  | nil => rfl
  | cons s rest ih =>
    have h : sweepTrace (s :: rest) = sweepStepTrace s ++ sweepTrace rest := by
      simp [sweepTrace]
    rw [h, acqRun_append, acqRun_sweepStep s]
    simpa using ih

/-- C1, counterexample: a sweep iteration is rejected by the automaton
as soon as the required settle delay exceeds the 50 ms the code sleeps,
so its settle delay is not roughly 100 ms (it is exactly 50 ms, accepted
at threshold 50 and rejected already at threshold 90). -/
theorem C1_counterexample :
    acqRun 90 .idle (sweepTrace [none]) = none ∧
    acqRun 50 .idle (sweepTrace [none]) = some .idle :=
  ⟨rfl, rfl⟩

/-! ## Sweep cadence -/

/-- C5: the per-step interval equals seconds_per_rotation times
(360/resolution)/360, the expected angle at step i equals
(i times 360/resolution) mod 360, and for resolution 36 at 90 seconds
per rotation the interval is exactly 5/2 seconds with expected angles
0, 10, 20, ..., 350. -/
theorem C5_cadence :
    (∀ res spr : ℚ, interval res spr = spr * (360 / res) / 360) ∧
    (∀ (res : ℚ) (i : Nat), expectedAngle res i = pymod ((i : ℚ) * (360 / res)) 360) ∧
    interval 36 90 = 5 / 2 ∧
    (List.range 36).map (fun i => expectedAngle 36 i) =
      [0, 10, 20, 30, 40, 50, 60, 70, 80, 90, 100, 110, 120, 130, 140, 150,
       160, 170, 180, 190, 200, 210, 220, 230, 240, 250, 260, 270, 280, 290,
       300, 310, 320, 330, 340, 350] := by
  refine ⟨?_, fun res i => rfl, by norm_num [interval, degreesPerMeasurement], ?_⟩
  · intro res spr
    unfold interval degreesPerMeasurement
    ring
  · have h : List.range 36 =
        [0, 1, 2, 3, 4, 5, 6, 7, 8, 9, 10, 11, 12, 13, 14, 15, 16, 17, 18, 19,
         20, 21, 22, 23, 24, 25, 26, 27, 28, 29, 30, 31, 32, 33, 34, 35] := by
      rfl
    rw [h]
    simp only [List.map]
    norm_num [expectedAngle, pymod, degreesPerMeasurement]

/-! ## Sweep configuration handling -/

/-- C6, amended: the sweep performs no configuration validation and
never produces the InvalidConfigError of the spec: a zero resolution
fails with a division-by-zero error before any acquisition, and a
negative resolution is accepted silently with an empty step list. -/
theorem C6_no_validation (res : Int) (spr : ℚ) :
    sweepSetup res spr ≠ .error .invalidConfig ∧
    (res = 0 → sweepSetup res spr = .error .zeroDivision) ∧
    (res < 0 →
      sweepSetup res spr =
        .ok ⟨360 / (res : ℚ), spr * ((360 / (res : ℚ)) / 360), []⟩) := by
  by_cases h : res = 0
  · subst h
    exact ⟨by simp [sweepSetup, pyIntDiv, Except.bind], fun _ => rfl,
      fun hlt => absurd hlt (by norm_num)⟩
  · refine ⟨?_, fun h0 => absurd h0 h, ?_⟩
    · simp [sweepSetup, pyIntDiv, h, Except.bind]
    · intro hlt
      have h0 : res.toNat = 0 := Int.toNat_of_nonpos hlt.le
      simp [sweepSetup, pyIntDiv, h, h0, Except.bind]

/-- C6, counterexample: resolution 0 produces a division-by-zero error,
not InvalidConfigError, and resolution -5 produces no error at all, just
an empty sweep. -/
theorem C6_counterexample :
    sweepSetup 0 90 = .error .zeroDivision ∧
    sweepSetup (-5) 90 = .ok ⟨-72, -18, []⟩ := by
  constructor
  · rfl
  · show Except.ok _ = _
    norm_num [sweepSetup, pyIntDiv, Except.bind]

/-- C6, witness for the amended theorem at resolution 0 and -5. -/
theorem C6_witness :
    (0 : Int) = 0 ∧ (-5 : Int) < 0 ∧
    sweepSetup 0 90 = .error .zeroDivision ∧
    sweepSetup (-5) 90 =
      .ok ⟨360 / ((-5 : Int) : ℚ), 90 * ((360 / ((-5 : Int) : ℚ)) / 360), []⟩ :=
  ⟨rfl, by decide, (C6_no_validation 0 90).2.1 rfl,
    (C6_no_validation (-5) 90).2.2 (by decide)⟩

/-! ## Sweep loop exception flow -/

theorem runSweep_ok_steps {α : Type} (pre : List α) :
    runSweep (pre.map StepOutcome.ok) = (pre, .completed) := by
  induction pre with
  | nil => rfl
  | cons r rs ih => simp [runSweep, ih]

/-- C7, amended: a hardware or audio fault at sweep step k makes the
originating error propagate out of the sweep with exactly the k records
collected so far, but those records are not persisted: the table write
is skipped entirely. -/
theorem C7_fault_aborts (α : Type) (pre : List α) (e : String)
    (rest : List (StepOutcome α)) :
    runSweep (pre.map StepOutcome.ok ++ StepOutcome.fault e :: rest) =
      (pre, .raised e) ∧
    sweepSaved (pre.map StepOutcome.ok ++ StepOutcome.fault e :: rest) = none := by
  have h : runSweep (pre.map StepOutcome.ok ++ StepOutcome.fault e :: rest) =
      (pre, .raised e) := by
    induction pre with
    | nil => rfl
    | cons r rs ih => simp [runSweep, ih]
  exact ⟨h, by simp [sweepSaved, h]⟩

/-- C7, counterexample: a fault on step 2 after two collected records
leaves the partial table unpersisted, contradicting the claim that it is
still written out. -/
theorem C7_counterexample :
    (runSweep [StepOutcome.ok (0 : Nat), StepOutcome.ok 1,
      StepOutcome.fault "usb read fault"]).1 = [0, 1] ∧
    sweepSaved [StepOutcome.ok (0 : Nat), StepOutcome.ok 1,
      StepOutcome.fault "usb read fault"] = none :=
  ⟨rfl, rfl⟩

/-- C8, amended: a user interrupt during a sweep is not an error: the
loop stops, the collected records are retained and persisted, and
nothing is raised to the caller; but the result carries no
early-termination marker, it is identical to the result of a completed
sweep over the same steps. -/
theorem C8_cancellation (α : Type) (pre : List α) (rest : List (StepOutcome α)) :
    runSweep (pre.map StepOutcome.ok ++ StepOutcome.interrupt :: rest) =
      (pre, .cancelled) ∧
    sweepSaved (pre.map StepOutcome.ok ++ StepOutcome.interrupt :: rest) =
      some pre ∧
    (∀ e, (runSweep (pre.map StepOutcome.ok ++ StepOutcome.interrupt :: rest)).2 ≠
      .raised e) ∧
    sweepReturn (pre.map StepOutcome.ok ++ StepOutcome.interrupt :: rest) =
      sweepReturn (pre.map StepOutcome.ok) := by
  have h : runSweep (pre.map StepOutcome.ok ++ StepOutcome.interrupt :: rest) =
      (pre, .cancelled) := by
    induction pre with
    | nil => rfl
    | cons r rs ih => simp [runSweep, ih]
  refine ⟨h, by simp [sweepSaved, h], by simp [h], ?_⟩
  simp [sweepReturn, h, runSweep_ok_steps]

/-- C8, counterexample: the persisted and returned result of a sweep
cancelled after one record is indistinguishable from that of a sweep
that simply completed with the same record, so the result is not marked
early-termination. -/
theorem C8_counterexample :
    sweepReturn [StepOutcome.ok (0 : Nat), StepOutcome.interrupt] =
      sweepReturn [StepOutcome.ok (0 : Nat)] ∧
    (runSweep [StepOutcome.ok (0 : Nat), StepOutcome.interrupt]).2 = .cancelled ∧
    (runSweep [StepOutcome.ok (0 : Nat)]).2 = .completed ∧
    sweepSaved [StepOutcome.ok (0 : Nat), StepOutcome.interrupt] = some [0] :=
  ⟨rfl, rfl, rfl, rfl⟩

/-! ## Persisted table layout -/

/-- C9, amended: the persisted table has one row per measurement record,
with the columns in exactly this order: measurement_index,
expected_angle, timestamp, doa_angle, agc_gain, agc_gain_db,
voice_activity, rms_level, rms_dbfs, peak_level, peak_dbfs. -/
theorem C9_columns (recs : List MeasurementRecord) (r : MeasurementRecord) :
    (csvTable recs).header =
      ["measurement_index", "expected_angle", "timestamp", "doa_angle",
       "agc_gain", "agc_gain_db", "voice_activity", "rms_level", "rms_dbfs",
       "peak_level", "peak_dbfs"] ∧
    (csvTable recs).rows = recs.map recordRow ∧
    (csvTable recs).rows.length = recs.length ∧
    recordRow r =
      [.natC r.measurement_index, .ratC r.expected_angle, .strC r.timestamp,
       .intC r.doa_angle, .ratC r.agc_gain, .dbC r.agc_gain_db,
       .boolC r.voice_activity, .realC r.rms_level, .dbC r.rms_dbfs,
       .intC r.peak_level, .dbC r.peak_dbfs] :=
  ⟨rfl, rfl, by simp [csvTable], rfl⟩

/-- C9, counterexample: the persisted header is not the column-name list
of the claim; three of the eleven names differ. -/
theorem C9_counterexample :
    (csvTable []).header ≠
      ["index", "expected_angle_deg", "timestamp", "doa_angle", "agc_gain",
       "agc_gain_db", "voice_active", "rms_level", "rms_dbfs", "peak_level",
       "peak_dbfs"] := by
  decide

/-! ## lock_doa -/

/-- C10: lock_doa performs the same sequence of device operations for
every value of its angle argument, and the direction-locking capability
is only referenced, never invoked. -/
theorem C10_lock_doa_angle_independent :
    (∀ (a a' : Int) (dev : Bool) (n : Nat), lock_doa a dev n = lock_doa a' dev n) ∧
    (∀ (a : Int) (dev : Bool) (n : Nat), DoaOp.invokeLockDoa ∉ lock_doa a dev n) ∧
    (∀ (a : Int) (n : Nat), DoaOp.refLockDoa ∈ lock_doa a true n) := by
  refine ⟨fun a a' dev n => rfl, ?_, ?_⟩
  · intro a dev n
    cases dev with
    | false => simp [lock_doa]
    | true =>
      intro hmem
      simp only [lock_doa, if_true, List.mem_append, List.mem_flatten] at hmem
      rcases hmem with h1 | ⟨l, hl, h2⟩
      · simp at h1
      · rcases List.mem_replicate.mp hl with ⟨-, rfl⟩
        simp [doaLoopBlock] at h2
  · intro a n
    simp [lock_doa]

/-! ## Signal level properties -/

theorem wrap16_eq_self (y : Int) (h1 : -32768 ≤ y) (h2 : y ≤ 32767) :
    wrap16 y = y := by
  unfold wrap16
  omega

theorem absI16_eq_abs (x : Int) (h1 : -32767 ≤ x) (h2 : x ≤ 32767) :
    absI16 x = |x| := by
  rw [absI16, Int.abs_eq_natAbs]
  unfold wrap16
  omega

theorem sq16_eq_mul_self (x : Int) (h : x.natAbs ≤ 181) : sq16 x = x * x := by
  have h0 : 0 ≤ x * x := mul_self_nonneg x
  have h1 : x * x ≤ 32761 := by
    have hx : (x.natAbs : Int) * (x.natAbs : Int) ≤ 181 * 181 := by
      have hc : (x.natAbs : Int) ≤ 181 := by exact_mod_cast h
      have hnn : (0 : Int) ≤ (x.natAbs : Int) := Int.natCast_nonneg _
      exact mul_le_mul hc hc hnn (by norm_num)
    calc x * x = (x.natAbs : Int) * (x.natAbs : Int) := (Int.natAbs_mul_self' x).symm
      _ ≤ 181 * 181 := hx
      _ = 32761 := by norm_num
  exact wrap16_eq_self _ (by omega) (by omega)

theorem le_foldl_maxAbs : ∀ (l : List Int) (m : Int),
    m ≤ l.foldl (fun a y => max a (absI16 y)) m
  | [], m => le_refl m
  | y :: rest, m => by
    rw [List.foldl_cons]
    exact le_trans (le_max_left m (absI16 y)) (le_foldl_maxAbs rest _)

theorem mem_le_foldl_maxAbs : ∀ (l : List Int) (m x : Int), x ∈ l →
    absI16 x ≤ l.foldl (fun a y => max a (absI16 y)) m
  | [], _, _, hx => absurd hx (List.not_mem_nil _)
  | y :: rest, m, x, hx => by
    rw [List.foldl_cons]
    rcases List.mem_cons.mp hx with h | h
    · subst h
      exact le_trans (le_max_right m (absI16 x)) (le_foldl_maxAbs rest _)
    · exact mem_le_foldl_maxAbs rest _ x h

theorem abs_le_peakLevel (xs : List Int) (x : Int) (hx : x ∈ xs)
    (h1 : -32767 ≤ x) (h2 : x ≤ 32767) : |x| ≤ peakLevel xs := by
  cases xs with
  | nil => cases hx
  | cons y rest =>
    rw [← absI16_eq_abs x h1 h2]
    rcases List.mem_cons.mp hx with h | h
    · subst h
      exact le_foldl_maxAbs rest (absI16 x)
    · exact mem_le_foldl_maxAbs rest (absI16 y) x h

theorem sumSqCode_nonneg_of (xs : List Int) (h : ∀ x ∈ xs, 0 ≤ sq16 x) :
    0 ≤ sumSqCode xs := by
  unfold sumSqCode
  induction xs with
  | nil => simp
  | cons y rest ih =>
    simp only [List.map_cons, List.sum_cons]
    have hy := h y (List.mem_cons_self y rest)
    have hr := ih fun x hx => h x (List.mem_cons_of_mem y hx)
    omega

theorem sumSqCode_le (xs : List Int) (c : Int) (h : ∀ x ∈ xs, sq16 x ≤ c) :
    sumSqCode xs ≤ (xs.length : Int) * c := by
  unfold sumSqCode
  induction xs with
  | nil => simp
  | cons y rest ih =>
    simp only [List.map_cons, List.sum_cons, List.length_cons]
    have hy := h y (List.mem_cons_self y rest)
    have hr := ih fun x hx => h x (List.mem_cons_of_mem y hx)
    push_cast
    nlinarith

/-- C3, counterexample: on the buffer containing only -32768, numpy
int16 abs wraps, so the computed peak is -32768, which is negative, and
the computed rms (zero, since the wrapped square of -32768 is zero) does
not lie below the peak. -/
theorem C3_counterexample :
    peakLevel [-32768] < 0 ∧ ¬ rmsLevel [-32768] ≤ ((peakLevel [-32768] : Int) : ℝ) := by
  have hp : peakLevel [-32768] = -32768 := by decide
  have hs : sumSqCode [-32768] = 0 := by decide
  have hr : rmsLevel [-32768] = 0 := by
    simp [rmsLevel, hs]
  constructor
  · rw [hp]; norm_num
  · rw [hr, hp]
    norm_num

/-- C3, amended: for every non-empty buffer whose samples all lie in
[-181, 181] (so that their squares are exactly representable in int16
and no abs wrap occurs), the computed peak is nonnegative, the computed
rms is nonnegative, and rms is at most peak. Outside that range the
int16 wrap of abs and of the elementwise square can make the computed
peak negative and the computed mean square negative. -/
theorem C3_levels (xs : List Int) (hne : xs ≠ [])
    (hrange : ∀ x ∈ xs, -181 ≤ x ∧ x ≤ 181) :
    0 ≤ peakLevel xs ∧ 0 ≤ rmsLevel xs ∧ rmsLevel xs ≤ ((peakLevel xs : Int) : ℝ) := by
  have hin : ∀ x ∈ xs, -32767 ≤ x ∧ x ≤ 32767 := by
    intro x hx
    have := hrange x hx
    omega
  have hpk : ∀ x ∈ xs, |x| ≤ peakLevel xs := fun x hx =>
    abs_le_peakLevel xs x hx (hin x hx).1 (hin x hx).2
  have hpk0 : 0 ≤ peakLevel xs := by
    cases xs with
    | nil => exact absurd rfl hne
    | cons y rest =>
      have hy := hpk y (List.mem_cons_self y rest)
      exact le_trans (abs_nonneg y) hy
  have hsq : ∀ x ∈ xs, sq16 x = x * x := by
    intro x hx
    have := hrange x hx
    exact sq16_eq_mul_self x (by omega)
  have hS0 : 0 ≤ sumSqCode xs := by
    refine sumSqCode_nonneg_of xs fun x hx => ?_
    rw [hsq x hx]
    exact mul_self_nonneg x
  have hSle : sumSqCode xs ≤ (xs.length : Int) * (peakLevel xs * peakLevel xs) := by
    refine sumSqCode_le xs _ fun x hx => ?_
    rw [hsq x hx]
    calc x * x = |x| * |x| := (abs_mul_abs_self x).symm
      _ ≤ peakLevel xs * peakLevel xs :=
        mul_le_mul (hpk x hx) (hpk x hx) (abs_nonneg x) hpk0
  have hn : 0 < (xs.length : ℝ) := by
    have : 0 < xs.length := List.length_pos.mpr hne
    exact_mod_cast this
  refine ⟨hpk0, Real.sqrt_nonneg _, ?_⟩
  have hdiv : (sumSqCode xs : ℝ) / (xs.length : ℝ) ≤ ((peakLevel xs : Int) : ℝ) ^ 2 := by
    rw [div_le_iff₀ hn]
    have : (sumSqCode xs : ℝ) ≤ (xs.length : ℝ) * (((peakLevel xs : Int) : ℝ) *
        ((peakLevel xs : Int) : ℝ)) := by
      exact_mod_cast hSle
    nlinarith
  calc rmsLevel xs ≤ Real.sqrt (((peakLevel xs : Int) : ℝ) ^ 2) :=
        Real.sqrt_le_sqrt hdiv
    _ = ((peakLevel xs : Int) : ℝ) := Real.sqrt_sq (by exact_mod_cast hpk0)

/-- C3, witness for the amended theorem on the buffer [3, -4]. -/
theorem C3_witness :
    ([3, -4] : List Int) ≠ [] ∧
    (∀ x ∈ ([3, -4] : List Int), -181 ≤ x ∧ x ≤ 181) ∧
    (0 ≤ peakLevel [3, -4] ∧ 0 ≤ rmsLevel [3, -4] ∧
      rmsLevel [3, -4] ≤ ((peakLevel [3, -4] : Int) : ℝ)) :=
  ⟨by decide, by decide, C3_levels [3, -4] (by decide) (by decide)⟩

/-- C2: evaluation of the code at the buffer [256]. The int16 square of
256 wraps to 0, so the computed rms is 0, while the exact formula
sqrt(mean(sample^2)) of the spec gives 256: the code does not compute
the claimed quantity. -/
theorem C2_overflow_eval :
    rmsLevel [256] = 0 ∧ rmsSpecFormula [256] = 256 := by
  constructor
  · have hs : sumSqCode [256] = 0 := by decide
    simp [rmsLevel, hs]
  · have hs : (([256] : List Int).map fun x => x * x).sum = 65536 := by decide
    unfold rmsSpecFormula
    rw [hs]
    norm_num
    rw [show (65536 : ℝ) = 256 ^ 2 by norm_num]
    exact Real.sqrt_sq (by norm_num)

/-- C4: the dBFS conversion yields 20 log10(x/32768) for every positive
level x and the negative-infinity sentinel at level 0; in particular an
all-zero buffer gets negInf for both rms and peak dBFS, with no domain
error. -/
theorem sumSqCode_of_zeros : ∀ xs : List Int, (∀ a ∈ xs, a = 0) →
    sumSqCode xs = 0
  | [], _ => rfl
  | y :: rest, h => by
    have hy : y = 0 := h y (List.mem_cons_self y rest)
    have hr : sumSqCode rest = 0 :=
      sumSqCode_of_zeros rest fun a ha => h a (List.mem_cons_of_mem y ha)
    subst hy
    show (List.map sq16 (0 :: rest)).sum = 0
    simp only [List.map_cons, List.sum_cons]
    rw [show sq16 0 = 0 from rfl, zero_add]
    exact hr

theorem foldl_maxAbs_of_zeros : ∀ l : List Int, (∀ a ∈ l, a = 0) →
    l.foldl (fun m y => max m (absI16 y)) 0 = 0
  | [], _ => rfl
  | b :: bs, h => by
    have hb : b = 0 := h b (List.mem_cons_self b bs)
    subst hb
    have hr := foldl_maxAbs_of_zeros bs fun a ha => h a (List.mem_cons_of_mem 0 ha)
    rw [List.foldl_cons, show absI16 0 = 0 from rfl, max_self]
    exact hr

theorem peakLevel_of_zeros (xs : List Int) (h : ∀ a ∈ xs, a = 0) :
    peakLevel xs = 0 := by
  cases xs with
  | nil => rfl
  | cons y rest =>
    have hy : y = 0 := h y (List.mem_cons_self y rest)
    subst hy
    show rest.foldl (fun m y => max m (absI16 y)) (absI16 0) = 0
    rw [show absI16 0 = 0 from rfl]
    exact foldl_maxAbs_of_zeros rest fun a ha => h a (List.mem_cons_of_mem 0 ha)

theorem C4_dbfs_conversion (x : ℝ) (hx : 0 < x) (xs : List Int)
    (hz : ∀ a ∈ xs, a = 0) :
    dbfs x = .val (20 * Real.logb 10 (x / 32768)) ∧ dbfs 0 = .negInf ∧
    rmsDbfs xs = .negInf ∧ peakDbfs xs = .negInf := by
  have hdb0 : dbfs 0 = .negInf := by simp [dbfs]
  have hs : sumSqCode xs = 0 := sumSqCode_of_zeros xs hz
  have hp : peakLevel xs = 0 := peakLevel_of_zeros xs hz
  have hrms : rmsLevel xs = 0 := by simp [rmsLevel, hs]
  refine ⟨by simp [dbfs, hx], hdb0, ?_, ?_⟩
  · rw [rmsDbfs, hrms]
    exact hdb0
  · rw [peakDbfs, hp]
    simpa using hdb0

/-- C4, witness at level 1 and the silent buffer [0, 0]. -/
theorem C4_witness :
    (0 : ℝ) < 1 ∧ (∀ a ∈ ([0, 0] : List Int), a = 0) ∧
    (dbfs 1 = .val (20 * Real.logb 10 (1 / 32768)) ∧ dbfs 0 = .negInf ∧
      rmsDbfs [0, 0] = .negInf ∧ peakDbfs [0, 0] = .negInf) :=
  ⟨one_pos, by decide, C4_dbfs_conversion 1 one_pos [0, 0] (by decide)⟩

end MicArray
